import Mathlib

/-!
Formal model of the claude-code-sandbox session persistence and recovery
layer: the session store (`src/session-store.ts`), the recovery engine
(`src/recover.ts`), the `clean` and `recover` CLI commands (`src/cli.ts`),
and the orchestrator's branch resolution and commit reaction flow.

The TypeScript code is shallowly embedded: the store file's JSON content is
modelled as an explicit `Json` value (the byte-level codec `JSON.parse` /
`JSON.stringify` is the runtime's; the model keeps the parsed value),
external effects (container runtime inspection, filesystem existence
checks, git subprocess results, operator prompt answers) are explicit
environment parameters, and each command is a pure state transformer.
-/

namespace ClaudeSandbox

/-- JSON values, as produced by the JavaScript runtime's `JSON.parse`. -/
inductive Json where
  | null : Json
  | bool (b : Bool) : Json
  | num (n : Int) : Json
  | str (s : String) : Json
  | arr (elems : List Json) : Json
  | obj (fields : List (String × Json)) : Json
deriving Repr

/-- JavaScript truthiness of a parsed JSON value (`data.sessions || []`
branches on this): `null`, `false`, `0` and `""` are falsy; every array and
object is truthy. -/
def Json.truthy : Json → Bool
  | .null => false
  | .bool b => b
  | .num n => n != 0
  | .str s => s != ""
  | .arr _ => true
  | .obj _ => true

/-- JavaScript property lookup on a parsed JSON value: only objects carry
properties; a missing property reads as `undefined`, modelled as `none`. -/
def Json.getProp (j : Json) (key : String) : Option Json :=
  match j with
  | .obj fields => fields.lookup key
  | _ => none

/-- `status` field of a session record (`session-store.ts`, `SessionRecord`). -/
inductive SessionStatus where
  | active | stopped | exited
deriving DecidableEq, Repr

/-- `exitType` field of a session record. -/
inductive ExitType where
  | intentional | crash | unknown
deriving DecidableEq, Repr

/-- Embedded `config` snapshot inside a session record. -/
structure ConfigSnapshot where
  dockerImage : Option String
  defaultShell : Option String
  autoCommit : Option Bool
  autoCommitIntervalMinutes : Option Int
  restartPolicy : Option String
deriving DecidableEq, Repr

/-- `SessionRecord` from `src/session-store.ts`. -/
structure SessionRecord where
  containerId : String
  containerName : String
  sessionId : String
  repoPath : String
  branchName : String
  originalBranch : String
  shadowRepoPath : String
  startTime : String
  lastActivityTime : String
  status : SessionStatus
  exitType : Option ExitType
  webUIPort : Option Int
  config : ConfigSnapshot
deriving DecidableEq, Repr

def SessionStatus.toStr : SessionStatus → String
  | .active => "active"
  | .stopped => "stopped"
  | .exited => "exited"

def ExitType.toStr : ExitType → String
  | .intentional => "intentional"
  | .crash => "crash"
  | .unknown => "unknown"

def SessionStatus.fromStr : String → Option SessionStatus
  | "active" => some .active
  | "stopped" => some .stopped
  | "exited" => some .exited
  | _ => none

def ExitType.fromStr : String → Option ExitType
  | "intentional" => some .intentional
  | "crash" => some .crash
  | "unknown" => some .unknown
  | _ => none

/-- Append a field to a JSON object field list only when the value is
present — `JSON.stringify` omits properties whose value is `undefined`,
which is how the record's optional fields serialize. -/
def optField (name : String) (v : Option Json) : List (String × Json) :=
  match v with
  | none => []
  | some j => [(name, j)]

/-- JSON encoding of the embedded config snapshot, field order as declared. -/
def ConfigSnapshot.encode (c : ConfigSnapshot) : Json :=
  .obj (optField "dockerImage" (c.dockerImage.map .str) ++
        optField "defaultShell" (c.defaultShell.map .str) ++
        optField "autoCommit" (c.autoCommit.map .bool) ++
        optField "autoCommitIntervalMinutes" (c.autoCommitIntervalMinutes.map .num) ++
        optField "restartPolicy" (c.restartPolicy.map .str))

/-- JSON encoding of a session record, as `JSON.stringify` lays it out. -/
def SessionRecord.encode (r : SessionRecord) : Json :=
  .obj ([("containerId", .str r.containerId),
         ("containerName", .str r.containerName),
         ("sessionId", .str r.sessionId),
         ("repoPath", .str r.repoPath),
         ("branchName", .str r.branchName),
         ("originalBranch", .str r.originalBranch),
         ("shadowRepoPath", .str r.shadowRepoPath),
         ("startTime", .str r.startTime),
         ("lastActivityTime", .str r.lastActivityTime),
         ("status", .str r.status.toStr)] ++
        optField "exitType" (r.exitType.map (fun e => .str e.toStr)) ++
        optField "webUIPort" (r.webUIPort.map .num) ++
        [("config", r.config.encode)])

def Json.asStr : Json → Option String
  | .str s => some s
  | _ => none

def Json.asNum : Json → Option Int
  | .num n => some n
  | _ => none

def Json.asBool : Json → Option Bool
  | .bool b => some b
  | _ => none

/-- Read an optional field back from an object's field list. Missing field
decodes to `none`; a present field must decode. -/
def decOptField {α : Type} (fields : List (String × Json)) (name : String)
    (dec : Json → Option α) : Option (Option α) :=
  match fields.lookup name with
  | none => some none
  | some j => (dec j).map some

def ConfigSnapshot.decode (j : Json) : Option ConfigSnapshot :=
  match j with
  | .obj fields => do
    let dockerImage ← decOptField fields "dockerImage" Json.asStr
    let defaultShell ← decOptField fields "defaultShell" Json.asStr
    let autoCommit ← decOptField fields "autoCommit" Json.asBool
    let interval ← decOptField fields "autoCommitIntervalMinutes" Json.asNum
    let restartPolicy ← decOptField fields "restartPolicy" Json.asStr
    pure ⟨dockerImage, defaultShell, autoCommit, interval, restartPolicy⟩
  | _ => none

def SessionRecord.decode (j : Json) : Option SessionRecord :=
  match j with
  | .obj fields => do
    let containerId ← (fields.lookup "containerId").bind Json.asStr
    let containerName ← (fields.lookup "containerName").bind Json.asStr
    let sessionId ← (fields.lookup "sessionId").bind Json.asStr
    let repoPath ← (fields.lookup "repoPath").bind Json.asStr
    let branchName ← (fields.lookup "branchName").bind Json.asStr
    let originalBranch ← (fields.lookup "originalBranch").bind Json.asStr
    let shadowRepoPath ← (fields.lookup "shadowRepoPath").bind Json.asStr
    let startTime ← (fields.lookup "startTime").bind Json.asStr
    let lastActivityTime ← (fields.lookup "lastActivityTime").bind Json.asStr
    let status ← ((fields.lookup "status").bind Json.asStr).bind SessionStatus.fromStr
    let exitType ← decOptField fields "exitType"
      (fun j => (Json.asStr j).bind ExitType.fromStr)
    let webUIPort ← decOptField fields "webUIPort" Json.asNum
    let config ← (fields.lookup "config").bind ConfigSnapshot.decode
    pure ⟨containerId, containerName, sessionId, repoPath, branchName,
          originalBranch, shadowRepoPath, startTime, lastActivityTime,
          status, exitType, webUIPort, config⟩
  | _ => none

theorem config_decode_encode (c : ConfigSnapshot) :
    ConfigSnapshot.decode c.encode = some c := by
  obtain ⟨d, s, a, i, r⟩ := c
  cases d <;> cases s <;> cases a <;> cases i <;> cases r <;>
    simp [ConfigSnapshot.encode, ConfigSnapshot.decode, optField, decOptField,
          List.lookup, Json.asStr, Json.asNum, Json.asBool]

theorem status_fromStr_toStr (s : SessionStatus) :
    SessionStatus.fromStr s.toStr = some s := by
  cases s <;> rfl

theorem exitType_fromStr_toStr (e : ExitType) :
    ExitType.fromStr e.toStr = some e := by
  cases e <;> rfl

theorem record_decode_encode (r : SessionRecord) :
    SessionRecord.decode r.encode = some r := by
  obtain ⟨cid, cn, sid, rp, bn, ob, srp, st, lat, status, et, port, cfg⟩ := r
  cases et <;> cases port <;>
    simp [SessionRecord.encode, SessionRecord.decode, optField, decOptField,
          List.lookup, Json.asStr, Json.asNum, status_fromStr_toStr,
          exitType_fromStr_toStr, config_decode_encode]

/-- State of the backing store file as seen by `SessionStore.load`
(`session-store.ts:40-48`): the file may be absent (`readFile` rejects with
ENOENT), unreadable (any other read error), hold content `JSON.parse`
rejects, or hold a parsed JSON value. -/
inductive FileState where
  | absent : FileState
  | unreadable : FileState
  | invalid : FileState
  | content (j : Json) : FileState

/-- `SessionStore.load` (`session-store.ts:40-48`), returning the JavaScript
value the method produces. Every failure inside the `try` block — read
error, parse error, or a property access throwing (`null.sessions`) — is
caught and yields `[]`; otherwise the method returns `data.sessions || []`,
i.e. the `sessions` property when truthy and `[]` when absent or falsy.
The model is a total function: `load` never raises. -/
def loadValue : FileState → Json
  | .absent => .arr []
  | .unreadable => .arr []
  | .invalid => .arr []
  | .content j =>
    match j with
    | .null => .arr []
    | _ =>
      match j.getProp "sessions" with
      | none => .arr []
      | some v => if v.truthy then v else .arr []

/-- `SessionStore.save` (`session-store.ts:50-58`): serialize
`{ sessions }` and atomically replace the store file. The written file
parses back to exactly this value. -/
def saveFile (sessions : List SessionRecord) : FileState :=
  .content (.obj [("sessions", .arr (sessions.map SessionRecord.encode))])

/-- Decode the value `load()` returns back into typed session records
(field-for-field). `none` when the value is not a list of record objects. -/
def decodeRecordList : List Json → Option (List SessionRecord)
  | [] => some []
  | j :: rest => do
    let r ← SessionRecord.decode j
    let rs ← decodeRecordList rest
    pure (r :: rs)

def decodeSessions (j : Json) : Option (List SessionRecord) :=
  match j with
  | .arr elems => decodeRecordList elems
  | _ => none

theorem decodeSessions_map_encode (l : List SessionRecord) :
    decodeSessions (.arr (l.map SessionRecord.encode)) = some l := by
  induction l with
  | nil => rfl
  | cons r rest ih =>
    simp only [decodeSessions, List.map_cons, decodeRecordList,
      record_decode_encode] at *
    simp [ih]

theorem loadValue_saveFile (l : List SessionRecord) :
    loadValue (saveFile l) = .arr (l.map SessionRecord.encode) := by
  simp [loadValue, saveFile, Json.getProp, List.lookup, Json.truthy]

/-- Typed view of the records held in a store file. Well-formed files —
those written by `save` — decode exactly; anything else reads as empty,
mirroring the fail-open contract of `load`. -/
def loadRecords (fs : FileState) : List SessionRecord :=
  (decodeSessions (loadValue fs)).getD []

theorem loadRecords_saveFile (l : List SessionRecord) :
    loadRecords (saveFile l) = l := by
  simp [loadRecords, loadValue_saveFile, decodeSessions_map_encode]

/-- In-memory upsert logic of `SessionStore.addSession`
(`session-store.ts:60-68`): drop any record with the same `containerId`,
then append the new record. -/
def addSessionList (sessions : List SessionRecord) (s : SessionRecord) :
    List SessionRecord :=
  sessions.filter (fun r => r.containerId ≠ s.containerId) ++ [s]

/-- `SessionStore.addSession` as a store-file transformer: load, filter,
append, save. -/
def addSessionFS (fs : FileState) (s : SessionRecord) : FileState :=
  saveFile (addSessionList (loadRecords fs) s)

/-- In-memory logic of `SessionStore.removeSession`
(`session-store.ts:82-86`). -/
def removeSessionList (sessions : List SessionRecord) (cid : String) :
    List SessionRecord :=
  sessions.filter (fun s => s.containerId ≠ cid)

/-- In-memory logic of `SessionStore.updateSession`
(`session-store.ts:70-80`): merge the partial update into the first record
whose `containerId` matches (`findIndex`); no-op when absent. -/
def updateSessionList (cid : String) (f : SessionRecord → SessionRecord) :
    List SessionRecord → List SessionRecord
  | [] => []
  | s :: rest =>
    if s.containerId = cid then f s :: rest
    else s :: updateSessionList cid f rest

/-- Live container state, derived in `getRecoverableSessions`
(`session-store.ts:106-114`). -/
inductive ContainerState where
  | running | stopped | gone
deriving DecidableEq, Repr

/-- Container-runtime facts the store cross-references: whether
`docker.getContainer(id).inspect()` succeeds for a given container id, and
whether the inspected state reports `Running`. -/
structure RuntimeEnv where
  inspectOk : String → Bool
  isRunning : String → Bool

/-- The tri-state classification computed per session
(`session-store.ts:107-114`): `inspect` failing means `gone`; otherwise
`running` or `stopped` by `info.State.Running`. -/
def containerStateOf (env : RuntimeEnv) (cid : String) : ContainerState :=
  if env.inspectOk cid then
    if env.isRunning cid then .running else .stopped
  else .gone

/-- A session record enriched with the two live facts
(`{ ...session, containerState, shadowExists }`). -/
structure RecoverableSession extends SessionRecord where
  containerState : ContainerState
  shadowExists : Bool
deriving DecidableEq, Repr

/-- `SessionStore.getRecoverableSessions` (`session-store.ts:88-125`):
for each stored record compute the container state and shadow-repo
presence, and keep the enriched record iff
`containerState !== "gone" || shadowExists`. `shadowDirs` is the set of
directories present on disk (`fsExtra.pathExists`). -/
def getRecoverableSessions (env : RuntimeEnv) (shadowDirs : List String)
    (sessions : List SessionRecord) : List RecoverableSession :=
  sessions.filterMap fun s =>
    let cs := containerStateOf env s.containerId
    let sh := shadowDirs.contains s.shadowRepoPath
    if cs ≠ .gone ∨ sh then some ⟨s, cs, sh⟩ else none

/-- Substring containment, the semantics of JavaScript's
`String.prototype.includes`. -/
def strIncludes (s sub : String) : Bool :=
  decide (List.IsInfix sub.data s.data)

/-- Render the stdout of `git remote -v` for a configured remote list
(name/URL pairs): one fetch line and one push line per remote, tab
separated — the text `recoverSession` scans with `.includes("origin")`. -/
def gitRemoteVOutput (remotes : List (String × String)) : String :=
  String.intercalate "\n"
    (List.flatten (remotes.map fun nu =>
      [nu.1 ++ "\t" ++ nu.2 ++ " (fetch)", nu.1 ++ "\t" ++ nu.2 ++ " (push)"]))

/-- Whether a remote literally named `origin` is configured — what the
spec's remote-verification step describes. -/
def originConfigured (remotes : List (String × String)) : Bool :=
  remotes.any fun nu => nu.1 = "origin"

/-- Outcomes of the git subprocess calls the push recovery action makes
(`recover.ts:110-165`). `commitOk` is irrelevant to control flow: a commit
failure is swallowed (`recover.ts:139-141`). -/
structure GitEnv where
  remoteCmdOk : Bool
  remotes : List (String × String)
  addOk : Bool
  commitOk : Bool
  branchCmdOk : Bool
  currentBranch : String
  pushOk : Bool
deriving DecidableEq, Repr

/-- How the push recovery action ended. -/
inductive PushOutcome where
  /-- The `.includes("origin")` test failed: `break` before any git
  mutation (`recover.ts:117-127`). -/
  | abortedNoOrigin
  /-- Some subprocess threw and the `catch` reported the failure
  (`recover.ts:156-163`). -/
  | failed
  /-- The push succeeded and the session record was retired
  (`recover.ts:152-155`). -/
  | pushed
deriving DecidableEq, Repr

/-- Durable state the recovery flow mutates: the session records in the
store file and the set of shadow-repo directories on disk. -/
structure World where
  sessions : List SessionRecord
  shadowDirs : List String
deriving DecidableEq, Repr

/-- The `push` recovery action (`recover.ts:110-165`). Control flow of the
source: run `git remote -v` (a failure escapes to the `catch`); `break`
if its output does not contain the substring `"origin"`; `git add -A`;
attempt a commit, swallowing failure; read the current branch; push; on
success remove the session record. Every `catch` path leaves the store and
the shadow directory untouched. -/
def pushAction (g : GitEnv) (sess : RecoverableSession) (w : World) :
    World × PushOutcome :=
  if ¬g.remoteCmdOk then (w, .failed)
  else if ¬strIncludes (gitRemoteVOutput g.remotes) "origin" then
    (w, .abortedNoOrigin)
  else if ¬g.addOk then (w, .failed)
  else if ¬g.branchCmdOk then (w, .failed)
  else if g.pushOk then
    ({ w with sessions := removeSessionList w.sessions sess.containerId },
     .pushed)
  else (w, .failed)

/-- The operator's choice at the shadow-repo menu (`recover.ts:83-107`). -/
inductive RecoverAction where
  | push | copy | show | discard
deriving DecidableEq, Repr

/-- Operator answers and subprocess results consumed by `recoverSession`. -/
structure RecoverEnv where
  action : RecoverAction
  confirmDiscard : Bool
  copyOk : Bool
  git : GitEnv
  now : String
deriving Repr

/-- `recoverSession` (`src/recover.ts`) as a transformer of durable state.
`running`/`stopped` branches re-attach and mark the record active
(`updateSession` with `status: "active"`, fresh `lastActivityTime`); the
gone-with-shadow branch dispatches on the operator's menu choice; the
gone-without-shadow branch removes the record (`recover.ts:213-222`). -/
def recoverSession (env : RecoverEnv) (sess : RecoverableSession)
    (w : World) : World :=
  match sess.containerState with
  | .running =>
    { w with sessions := (updateSessionList sess.containerId
        (fun s => { s with status := .active, lastActivityTime := env.now })
        w.sessions) }
  | .stopped =>
    { w with sessions := (updateSessionList sess.containerId
        (fun s => { s with status := .active, lastActivityTime := env.now })
        w.sessions) }
  | .gone =>
    if sess.shadowExists then
      match env.action with
      | .push => (pushAction env.git sess w).1
      | .copy =>
        if env.copyOk then
          { w with sessions := removeSessionList w.sessions sess.containerId }
        else w
      | .show => w
      | .discard =>
        if env.confirmDiscard then
          { sessions := removeSessionList w.sessions sess.containerId,
            shadowDirs := w.shadowDirs.filter (fun d => d ≠ sess.shadowRepoPath) }
        else w
    else
      { w with sessions := removeSessionList w.sessions sess.containerId }

/-- The `recover` CLI command (`cli.ts:538-607`): scan the store for
recoverable sessions; when none are found, or with `--list`, return
without touching anything; otherwise the operator selects one of the
*recoverable* sessions and `recoverSession` runs on it. The selection
prompt only offers members of the recoverable list, so the lookup by the
selected `containerId` is over that list. -/
def recoverCmd (renv : RuntimeEnv) (env : RecoverEnv) (listOnly : Bool)
    (selectedId : String) (w : World) : World :=
  let recoverable := getRecoverableSessions renv w.shadowDirs w.sessions
  if recoverable.isEmpty then w
  else if listOnly then w
  else
    match recoverable.find? (fun s => s.containerId = selectedId) with
    | none => w
    | some sess => recoverSession env sess w

/-- The session-record phase of the `clean` command (`cli.ts:372-387`):
iterate over the loaded record list, and for every record whose container
`inspect()` fails, call `store.removeSession`. The store state threads
through the loop while the iteration list stays the one loaded up front. -/
def cleanRecordsPass (env : RuntimeEnv) (sessions : List SessionRecord) :
    List SessionRecord :=
  sessions.foldl
    (fun st s =>
      if env.inspectOk s.containerId then st
      else removeSessionList st s.containerId)
    sessions

/-- The `clean` command's store and shadow phases (`cli.ts:372-406`):
remove records whose containers fail `inspect`, then — only with
`--shadows` — re-load the store and delete every entry under the shadow
base directory whose name is not an active `sessionId`. `shadowEntries`
are the directory names under the shadow base path. -/
def cleanCmd (env : RuntimeEnv) (shadowsFlag : Bool)
    (sessions : List SessionRecord) (shadowEntries : List String) :
    List SessionRecord × List String :=
  let store1 := cleanRecordsPass env sessions
  let entries1 :=
    if shadowsFlag then
      let activeIds := store1.map SessionRecord.sessionId
      shadowEntries.filter (fun e => activeIds.contains e)
    else shadowEntries
  (store1, entries1)

/-- JavaScript `String.prototype.split` with a one-character separator,
over the character list: `"a/b/c".split("/") = ["a","b","c"]`,
`"".split("/") = [""]`, `"/x".split("/") = ["","x"]`. -/
def splitOnChar (c : Char) : List Char → List (List Char)
  | [] => [[]]
  | x :: xs =>
    let rest := splitOnChar c xs
    if x = c then [] :: rest
    else
      match rest with
      | [] => [[x]]
      | y :: ys => (x :: y) :: ys

/-- `Array.prototype.join` with a one-character separator. -/
def joinChar (c : Char) : List (List Char) → List Char
  | [] => []
  | [y] => y
  | y :: ys => y ++ c :: joinChar c ys

/-- Configuration fields `ClaudeSandbox.run` branches on when resolving
the target branch (`part_000:54-132`); JavaScript truthiness, so an unset
or empty string behaves the same. -/
structure OrchConfig where
  prNumber : Option String
  remoteBranch : Option String
  targetBranch : Option String
deriving DecidableEq, Repr

/-- JavaScript truthiness of an optional string config field. -/
def strTruthy : Option String → Bool
  | none => false
  | some s => s != ""

/-- External facts branch resolution consumes: whether
`gh pr view <n> --json headRefName` succeeds and what head branch it
reports, plus the timestamp pieces for a synthesized branch name. -/
structure OrchEnv where
  ghPrLookupOk : Bool
  headRefName : String
  datePart : String
  nowMillis : Nat
deriving DecidableEq, Repr

/-- The result handed to container start-up: the branch name and the two
fetch-reference slots, initialized to `""` and set by at most one mode
(`part_000:50-52`). -/
structure BranchResolution where
  branchName : String
  prFetchRef : String
  remoteFetchRef : String
deriving DecidableEq, Repr

/-- Branch resolution in `ClaudeSandbox.run` (`part_000:54-132`).
Mode 1 (`config.prNumber` truthy): look up the PR head branch, fetch ref
`pull/<n>/head:<name>`; a lookup failure rethrows. Mode 2
(`config.remoteBranch` truthy): split on `"/"`; fewer than two parts
throws; else the first part is the remote, the rest rejoined with `"/"`
is the branch, fetch ref `<remote>/<branch>`. Mode 3: the configured
target branch if truthy, else `claude/<date>-<millis>`. -/
def resolveBranch (cfg : OrchConfig) (env : OrchEnv) :
    Except Unit BranchResolution :=
  if strTruthy cfg.prNumber then
    if env.ghPrLookupOk then
      .ok ⟨env.headRefName,
           "pull/" ++ cfg.prNumber.getD "" ++ "/head:" ++ env.headRefName,
           ""⟩
    else .error ()
  else if strTruthy cfg.remoteBranch then
    let spec := cfg.remoteBranch.getD ""
    let parts := splitOnChar '/' spec.data
    if parts.length < 2 then .error ()
    else
      let remote := parts.headD []
      let branch := joinChar '/' (parts.drop 1)
      .ok ⟨String.mk branch, "",
           String.mk remote ++ "/" ++ String.mk branch⟩
  else
    if strTruthy cfg.targetBranch then
      .ok ⟨cfg.targetBranch.getD "", "", ""⟩
    else
      .ok ⟨"claude/" ++ env.datePart ++ "-" ++ toString env.nowMillis,
           "", ""⟩

/-- Observable git/PR events of the commit reaction flow. -/
inductive OrchEvent where
  /-- `git push origin <branch>` completed (`pushBranch`). -/
  | pushedBranch (branch : String)
  /-- `gh pr create --fill` was invoked. -/
  | prCreateTried
  /-- PR creation succeeded. -/
  | prCreated
  /-- PR creation failed; downgraded to a "create it manually" warning. -/
  | prWarnedManual
deriving DecidableEq, Repr

/-- External results the commit reaction flow consumes. -/
structure CommitEnv where
  pushOk : Bool
  prCreateOk : Bool
  currentBranch : String
deriving DecidableEq, Repr

/-- `ClaudeSandbox.pushBranch` (`part_000:248-252`): push the current
local branch to `origin`; a push failure propagates as an exception. -/
def pushBranch (env : CommitEnv) : Except Unit (List OrchEvent) :=
  if env.pushOk then .ok [.pushedBranch env.currentBranch] else .error ()

/-- `ClaudeSandbox.pushBranchAndCreatePR` (`part_000:254-269`): push
first; only then invoke `gh pr create --fill` inside a `try` whose `catch`
prints a warning — a PR-creation failure never unwinds the push or escapes
the method. -/
def pushBranchAndCreatePR (env : CommitEnv) : Except Unit (List OrchEvent) :=
  match pushBranch env with
  | .error e => .error e
  | .ok evs =>
    .ok (evs ++
      if env.prCreateOk then [.prCreateTried, .prCreated]
      else [.prCreateTried, .prWarnedManual])

/-! ## Helper lemmas -/

theorem mem_getRecoverableSessions (env : RuntimeEnv)
    (shadowDirs : List String) (sessions : List SessionRecord)
    (r : RecoverableSession) :
    r ∈ getRecoverableSessions env shadowDirs sessions ↔
      r.toSessionRecord ∈ sessions ∧
      r.containerState = containerStateOf env r.containerId ∧
      r.shadowExists = shadowDirs.contains r.shadowRepoPath ∧
      (r.containerState ≠ .gone ∨ r.shadowExists = true) := by
  obtain ⟨s, cs, sh⟩ := r
  simp only [getRecoverableSessions, List.mem_filterMap]
  constructor
  · rintro ⟨t, ht, hcond⟩
    split at hcond
    · next hc =>
      rw [Option.some.injEq] at hcond
      cases hcond
      exact ⟨ht, rfl, rfl, hc⟩
    · exact absurd hcond (by simp)
  · rintro ⟨ht, rfl, rfl, hcond⟩
    exact ⟨s, ht, by rw [if_pos hcond]⟩

/-- A fixed concrete session record used to instantiate theorems. -/
def sampleRecord : SessionRecord :=
  { containerId := "c0ffee0123456789abcd"
    containerName := "claude-code-sandbox-1"
    sessionId := "c0ffee012345"
    repoPath := "/home/user/repo"
    branchName := "claude/2024-01-01-1"
    originalBranch := "main"
    shadowRepoPath := "/home/user/.claude-sandbox/shadows/c0ffee012345"
    startTime := "2024-01-01T00:00:00.000Z"
    lastActivityTime := "2024-01-01T00:05:00.000Z"
    status := .stopped
    exitType := some .crash
    webUIPort := some 3456
    config := { dockerImage := some "claude-sandbox:latest"
                defaultShell := some "claude"
                autoCommit := some true
                autoCommitIntervalMinutes := some 5
                restartPolicy := none } }

/-- A second concrete record sharing `sampleRecord`'s `containerId`. -/
def sampleRecordUpdated : SessionRecord :=
  { sampleRecord with
    status := .active
    lastActivityTime := "2024-01-01T01:00:00.000Z" }

/-! ## C2 — the recoverable-session set -/

/-- C2: an enriched record is in the set `getRecoverableSessions` returns
iff its underlying record is stored, its two live facts are the ones the
scan computes, and `containerState ≠ gone ∨ shadowExists`; consequently no
element of the returned set has `containerState = gone` together with
`shadowExists = false`. -/
theorem recoverable_set_membership_invariant (env : RuntimeEnv)
    (shadowDirs : List String) (sessions : List SessionRecord) :
    (∀ r : RecoverableSession,
      r ∈ getRecoverableSessions env shadowDirs sessions ↔
        r.toSessionRecord ∈ sessions ∧
        r.containerState = containerStateOf env r.containerId ∧
        r.shadowExists = shadowDirs.contains r.shadowRepoPath ∧
        (r.containerState ≠ .gone ∨ r.shadowExists = true)) ∧
    (∀ r ∈ getRecoverableSessions env shadowDirs sessions,
      ¬(r.containerState = .gone ∧ r.shadowExists = false)) := by
  refine ⟨fun r => mem_getRecoverableSessions env shadowDirs sessions r, ?_⟩
  intro r hr
  rcases ((mem_getRecoverableSessions env shadowDirs sessions r).mp hr).2.2.2
    with hc | hc
  · rintro ⟨h, _⟩; exact hc h
  · rintro ⟨_, h⟩; rw [hc] at h; cases h

/-- Witness for C2 at a concrete store: the sole stored record, enriched
as `stopped` with a shadow present, is in the recoverable set, and the
gone-and-shadowless invariant holds of it. -/
theorem recoverable_set_membership_invariant_witness :
    (⟨sampleRecord, .stopped, true⟩ : RecoverableSession) ∈
      getRecoverableSessions
        ⟨fun _ => true, fun _ => false⟩
        [sampleRecord.shadowRepoPath] [sampleRecord] ∧
    ¬((ContainerState.stopped = .gone) ∧ (true = false)) := by
  constructor
  · exact (recoverable_set_membership_invariant
      ⟨fun _ => true, fun _ => false⟩
      [sampleRecord.shadowRepoPath] [sampleRecord]).1
      ⟨sampleRecord, .stopped, true⟩ |>.mpr
      (by refine ⟨by simp, by rfl, by simp, Or.inl (by simp)⟩)
  · exact (recoverable_set_membership_invariant
      ⟨fun _ => true, fun _ => false⟩
      [sampleRecord.shadowRepoPath] [sampleRecord]).2
      ⟨sampleRecord, .stopped, true⟩
      ((recoverable_set_membership_invariant
        ⟨fun _ => true, fun _ => false⟩
        [sampleRecord.shadowRepoPath] [sampleRecord]).1
        ⟨sampleRecord, .stopped, true⟩ |>.mpr
        (by refine ⟨by simp, by rfl, by simp, Or.inl (by simp)⟩))

/-! ## C1 — gone-and-shadowless records survive the recovery flow -/

/-- Runtime in which every container `inspect` fails: all containers gone. -/
def goneRuntime : RuntimeEnv := ⟨fun _ => false, fun _ => false⟩

/-- C1 (failing-input evaluation): a store holding one record whose
container is gone and whose shadow repo does not exist. The reconciliation
pass (`getRecoverableSessions`) returns the empty set without touching the
store, and since the `recover` command only invokes `recoverSession` on
members of that set, the unrecoverable-cleanup branch of `recoverSession`
(`recover.ts:213-222`) is unreachable: after the recovery flow runs, for
every operator behaviour, the dangling record is still in the store and a
subsequent `load()` still includes it. -/
theorem recover_cmd_retains_gone_shadowless_record :
    getRecoverableSessions goneRuntime [] [sampleRecord] = [] ∧
    (∀ (env : RecoverEnv) (listOnly : Bool) (selectedId : String),
      recoverCmd goneRuntime env listOnly selectedId ⟨[sampleRecord], []⟩ =
        ⟨[sampleRecord], []⟩) ∧
    (∀ (env : RecoverEnv) (listOnly : Bool) (selectedId : String),
      sampleRecord ∈
        (recoverCmd goneRuntime env listOnly selectedId
          ⟨[sampleRecord], []⟩).sessions) := by
  have h1 : getRecoverableSessions goneRuntime [] [sampleRecord] = [] := rfl
  refine ⟨h1, fun env listOnly selectedId => ?_, fun env listOnly selectedId => ?_⟩
  · simp [recoverCmd, h1]
  · simp [recoverCmd, h1]

/-! ## C4 — upsert by containerId -/

/-- After an upsert of `B`, the records carrying `B.containerId` are
exactly `[B]`, whatever the prior store held. -/
theorem filter_addSessionList_self (m : List SessionRecord)
    (B : SessionRecord) :
    (addSessionList m B).filter
      (fun r => r.containerId = B.containerId) = [B] := by
  simp only [addSessionList, List.filter_append]
  rw [List.filter_eq_nil_iff.mpr, List.nil_append]
  · simp
  · intro r hr
    rw [List.mem_filter] at hr
    simpa using hr.2

/-- C4: writing `A` and then `A'` with the same `containerId` (through the
store file) leaves exactly one record for that id, field-for-field equal
to `A'`, on the next load; and the upsert preserves uniqueness of
`containerId` across the store. -/
theorem addSession_upsert_unique (l : List SessionRecord)
    (A A' : SessionRecord) (h : A'.containerId = A.containerId) :
    loadRecords (addSessionFS (addSessionFS (saveFile l) A) A') =
      addSessionList (addSessionList l A) A' ∧
    (addSessionList (addSessionList l A) A').filter
      (fun r => r.containerId = A'.containerId) = [A'] ∧
    (addSessionList (addSessionList l A) A').filter
      (fun r => r.containerId = A.containerId) = [A'] ∧
    (∀ (m : List SessionRecord) (B : SessionRecord),
      (m.map SessionRecord.containerId).Nodup →
      ((addSessionList m B).map SessionRecord.containerId).Nodup) := by
  refine ⟨?_, ?_, ?_, ?_⟩
  · simp [addSessionFS, loadRecords_saveFile]
  · exact filter_addSessionList_self (addSessionList l A) A'
  · rw [← h]
    exact filter_addSessionList_self (addSessionList l A) A'
  · intro m B hm
    simp only [addSessionList, List.map_append, List.map_cons, List.map_nil]
    rw [List.nodup_append]
    refine ⟨hm.sublist ((List.filter_sublist _).map SessionRecord.containerId),
      List.nodup_singleton _, ?_⟩
    intro x hx
    simp only [List.mem_map, List.mem_filter, decide_eq_true_eq] at hx
    obtain ⟨r, ⟨_, hne⟩, rfl⟩ := hx
    simpa using hne

/-- Witness for C4 at a concrete store: upserting `sampleRecord` and then
`sampleRecordUpdated` (same `containerId`) into an empty store leaves
exactly `[sampleRecordUpdated]` for that id on the next load. -/
theorem addSession_upsert_unique_witness :
    loadRecords (addSessionFS (addSessionFS (saveFile []) sampleRecord)
        sampleRecordUpdated) =
      addSessionList (addSessionList [] sampleRecord) sampleRecordUpdated ∧
    (addSessionList (addSessionList [] sampleRecord)
        sampleRecordUpdated).filter
      (fun r => r.containerId = sampleRecordUpdated.containerId) =
      [sampleRecordUpdated] :=
  ⟨(addSession_upsert_unique [] sampleRecord sampleRecordUpdated rfl).1,
   (addSession_upsert_unique [] sampleRecord sampleRecordUpdated rfl).2.1⟩

/-! ## C5 — corrupt-file safety of load -/

/-- C5: `load()` on an absent, unreadable, or unparseable store file
returns the empty list and (being a total function of the file state)
never raises; on a file written by `save` it returns the full ordered
record list, which decodes field-for-field. -/
theorem load_corrupt_safe :
    loadValue .absent = .arr [] ∧
    loadValue .unreadable = .arr [] ∧
    loadValue .invalid = .arr [] ∧
    ∀ l : List SessionRecord,
      loadValue (saveFile l) = .arr (l.map SessionRecord.encode) ∧
      decodeSessions (loadValue (saveFile l)) = some l := by
  refine ⟨rfl, rfl, rfl, fun l => ⟨loadValue_saveFile l, ?_⟩⟩
  rw [loadValue_saveFile, decodeSessions_map_encode]

/-! ## C9 — store round-trip -/

/-- C9: a `load()` after a `save()` of any record list yields the same
records, field-for-field (the decoded value of the loaded file is exactly
the saved list). -/
theorem store_roundtrip (l : List SessionRecord) :
    decodeSessions (loadValue (saveFile l)) = some l := by
  rw [loadValue_saveFile, decodeSessions_map_encode]

/-! ## C3 — the push recovery action -/

/-- A git environment with no remote named `origin`, but with a remote
whose URL mentions "origin"; every later step would run, and the final
push (to the nonexistent `origin`) fails. -/
def noOriginGitEnv : GitEnv :=
  { remoteCmdOk := true
    remotes := [("upstream", "https://github.com/origin-labs/tool.git")]
    addOk := true
    commitOk := false
    branchCmdOk := true
    currentBranch := "claude/2024-01-01-1"
    pushOk := false }

/-- `sampleRecord` enriched as a gone container with an existing shadow. -/
def sampleGoneShadow : RecoverableSession := ⟨sampleRecord, .gone, true⟩

/-- Durable state holding `sampleRecord` and its shadow directory. -/
def sampleWorld : World := ⟨[sampleRecord], [sampleRecord.shadowRepoPath]⟩

/-- Counterexample to C3 as stated: in `noOriginGitEnv` no remote named
"origin" is configured, yet the push action does not abort at remote
verification — the guard is `remoteOutput.includes("origin")`
(`recover.ts:117`), a substring test over the whole `git remote -v`
output, and the remote's URL contains "origin". The flow proceeds through
staging and the branch query to a failing push. -/
theorem push_origin_check_counterexample :
    originConfigured noOriginGitEnv.remotes = false ∧
    pushAction noOriginGitEnv sampleGoneShadow sampleWorld ≠
      (sampleWorld, .abortedNoOrigin) := by
  have heval : pushAction noOriginGitEnv sampleGoneShadow sampleWorld =
      (sampleWorld, .failed) := by decide
  refine ⟨rfl, ?_⟩
  rw [heval]
  intro hcontra
  exact absurd (congrArg Prod.snd hcontra) (by decide)

/-- C3 as amended: the push action aborts with everything unchanged when
the `git remote -v` output lacks the substring "origin" (which in
particular holds whenever no remote name or URL mentions "origin" — but
not in general when merely no remote is *named* "origin"); on any other
non-push outcome the store and the shadow directory are left intact; and
the session record is removed exactly when the push succeeds. -/
theorem push_action_amended (g : GitEnv) (sess : RecoverableSession)
    (w : World) :
    (g.remoteCmdOk = true →
      strIncludes (gitRemoteVOutput g.remotes) "origin" = false →
      pushAction g sess w = (w, .abortedNoOrigin)) ∧
    ((pushAction g sess w).2 ≠ .pushed → (pushAction g sess w).1 = w) ∧
    ((pushAction g sess w).2 = .pushed →
      g.pushOk = true ∧
      (pushAction g sess w).1.sessions =
        removeSessionList w.sessions sess.containerId ∧
      (pushAction g sess w).1.shadowDirs = w.shadowDirs) := by
  unfold pushAction
  split_ifs with h1 h2 h3 h4 h5 <;> simp_all

/-- Witness for C3's amended statement: with `origin` absent from an empty
remote list the action aborts leaving the world unchanged, and with a
fully succeeding git environment the push retires the record and leaves
the shadow directory alone. -/
theorem push_action_amended_witness :
    pushAction { noOriginGitEnv with remotes := [] } sampleGoneShadow
        sampleWorld = (sampleWorld, .abortedNoOrigin) ∧
    (pushAction { noOriginGitEnv with remotes := [("origin", "git@github.com:user/repo.git")], pushOk := true }
        sampleGoneShadow sampleWorld).1.sessions =
      removeSessionList sampleWorld.sessions sampleGoneShadow.containerId :=
  ⟨(push_action_amended { noOriginGitEnv with remotes := [] }
      sampleGoneShadow sampleWorld).1 rfl (by decide),
   ((push_action_amended { noOriginGitEnv with remotes := [("origin", "git@github.com:user/repo.git")], pushOk := true }
      sampleGoneShadow sampleWorld).2.2 (by decide)).2.1⟩

/-! ## C7 — the discard recovery action -/

/-- C7: the discard action mutates nothing unless the operator confirms;
on confirmation the shadow directory is deleted and the record removed. -/
theorem discard_confirmation_gate (env : RecoverEnv)
    (sess : RecoverableSession) (w : World)
    (hgone : sess.containerState = .gone)
    (hshadow : sess.shadowExists = true)
    (haction : env.action = .discard) :
    (env.confirmDiscard = false → recoverSession env sess w = w) ∧
    (env.confirmDiscard = true →
      recoverSession env sess w =
        ⟨removeSessionList w.sessions sess.containerId,
         w.shadowDirs.filter (fun d => d ≠ sess.shadowRepoPath)⟩ ∧
      sess.shadowRepoPath ∉ (recoverSession env sess w).shadowDirs ∧
      ∀ r ∈ (recoverSession env sess w).sessions,
        r.containerId ≠ sess.containerId) := by
  constructor
  · intro hdecl
    simp [recoverSession, hgone, hshadow, haction, hdecl]
  · intro hconf
    have heq : recoverSession env sess w =
        ⟨removeSessionList w.sessions sess.containerId,
         w.shadowDirs.filter (fun d => d ≠ sess.shadowRepoPath)⟩ := by
      simp [recoverSession, hgone, hshadow, haction, hconf]
    refine ⟨heq, ?_, ?_⟩
    · rw [heq]
      intro hmem
      rcases List.mem_filter.mp hmem with ⟨_, hne⟩
      simp at hne
    · rw [heq]
      intro r hr
      rcases List.mem_filter.mp hr with ⟨_, hne⟩
      simpa [removeSessionList] using hne

/-- Witness for C7: concretely, declining leaves `sampleWorld` unchanged
and confirming deletes `sampleRecord`'s shadow directory and record. -/
theorem discard_confirmation_gate_witness :
    recoverSession
      { action := .discard, confirmDiscard := false, copyOk := true,
        git := noOriginGitEnv, now := "2024-01-02T00:00:00.000Z" }
      sampleGoneShadow sampleWorld = sampleWorld ∧
    recoverSession
      { action := .discard, confirmDiscard := true, copyOk := true,
        git := noOriginGitEnv, now := "2024-01-02T00:00:00.000Z" }
      sampleGoneShadow sampleWorld =
      ⟨removeSessionList sampleWorld.sessions sampleGoneShadow.containerId,
       sampleWorld.shadowDirs.filter
         (fun d => d ≠ sampleGoneShadow.shadowRepoPath)⟩ :=
  ⟨(discard_confirmation_gate
      { action := .discard, confirmDiscard := false, copyOk := true,
        git := noOriginGitEnv, now := "2024-01-02T00:00:00.000Z" }
      sampleGoneShadow sampleWorld rfl rfl rfl).1 rfl,
   ((discard_confirmation_gate
      { action := .discard, confirmDiscard := true, copyOk := true,
        git := noOriginGitEnv, now := "2024-01-02T00:00:00.000Z" }
      sampleGoneShadow sampleWorld rfl rfl rfl).2 rfl).1⟩

/-! ## C8 — push-and-open-PR -/

/-- The operator's answer to the commit prompt
(`ClaudeSandbox.handleCommit`, `part_000:232-245`). -/
inductive CommitChoice where
  | nothing | push | pushPr | endSession
deriving DecidableEq, Repr

/-- The dispatch at the end of `ClaudeSandbox.handleCommit`
(`part_000:232-245`): `nothing` continues; `push` runs `pushBranch`;
`push-pr` runs `pushBranchAndCreatePR`; `exit` runs cleanup and terminates
the process (termination itself is outside the model). -/
def handleCommitAction (env : CommitEnv) :
    CommitChoice → Except Unit (List OrchEvent)
  | .nothing => .ok []
  | .push => pushBranch env
  | .pushPr => pushBranchAndCreatePR env
  | .endSession => .ok []

/-- C8: the push-and-open-PR choice fails (propagating) exactly when the
push itself fails — so PR creation is never attempted before a successful
push; on success the event trace starts with the completed push and the PR
attempt comes strictly after; and a PR-creation failure yields a normal
(`ok`) return ending in the manual-creation warning, with the push event
still in the trace — nothing is rolled back or re-raised. -/
theorem push_pr_warning_only (env : CommitEnv) :
    (handleCommitAction env .pushPr = .error () ↔ env.pushOk = false) ∧
    (∀ evs, handleCommitAction env .pushPr = .ok evs →
      ∃ tail, evs = .pushedBranch env.currentBranch :: tail ∧
        OrchEvent.prCreateTried ∈ tail) ∧
    (env.pushOk = true → env.prCreateOk = false →
      handleCommitAction env .pushPr =
        .ok [.pushedBranch env.currentBranch, .prCreateTried,
             .prWarnedManual]) := by
  have hd : handleCommitAction env .pushPr = pushBranchAndCreatePR env := rfl
  rw [hd]
  refine ⟨?_, ?_, ?_⟩
  · unfold pushBranchAndCreatePR pushBranch
    rcases h : env.pushOk <;> simp [h]
  · intro evs hev
    unfold pushBranchAndCreatePR pushBranch at hev
    rcases h : env.pushOk <;> rw [h] at hev <;> simp at hev
    rcases hp : env.prCreateOk <;> rw [hp] at hev <;> rw [← hev] <;>
      exact ⟨_, rfl, by simp⟩
  · intro hpush hpr
    unfold pushBranchAndCreatePR pushBranch
    simp [hpush, hpr]

/-- Witness for C8: with a succeeding push and a failing PR creation the
flow returns normally with the pushed-then-warned trace. -/
theorem push_pr_warning_only_witness :
    handleCommitAction
        { pushOk := true, prCreateOk := false, currentBranch := "feat" }
        .pushPr =
      .ok [.pushedBranch "feat", .prCreateTried, .prWarnedManual] :=
  (push_pr_warning_only
    { pushOk := true, prCreateOk := false, currentBranch := "feat" }).2.2
    rfl rfl

/-! ## C6 — branch resolution -/

theorem splitOnChar_ne_nil (c : Char) (l : List Char) :
    splitOnChar c l ≠ [] := by
  cases l with
  | nil => simp [splitOnChar]
  | cons x xs =>
    simp only [splitOnChar]
    split
    · simp
    · rcases h : splitOnChar c xs with _ | ⟨y, ys⟩ <;> simp

theorem joinChar_splitOnChar (c : Char) (l : List Char) :
    joinChar c (splitOnChar c l) = l := by
  induction l with
  | nil => rfl
  | cons x xs ih =>
    simp only [splitOnChar]
    split
    · next hx =>
      subst hx
      rcases h : splitOnChar x xs with _ | ⟨y, ys⟩
      · exact absurd h (splitOnChar_ne_nil x xs)
      · rw [h] at ih
        cases ys with
        | nil => simpa [joinChar] using ih
        | cons z zs => simpa [joinChar] using ih
    · next hx =>
      rcases h : splitOnChar c xs with _ | ⟨y, ys⟩
      · exact absurd h (splitOnChar_ne_nil c xs)
      · rw [h] at ih
        cases ys with
        | nil => simpa [joinChar] using ih
        | cons z zs =>
          simp only [joinChar] at ih ⊢
          simp [← ih]

/-- The first segment produced by `split` never contains the separator. -/
theorem sep_not_mem_splitOnChar_head (c : Char) (l : List Char) :
    c ∉ (splitOnChar c l).headD [] := by
  induction l with
  | nil => simp [splitOnChar]
  | cons x xs ih =>
    simp only [splitOnChar]
    split
    · simp
    · next hx =>
      rcases h : splitOnChar c xs with _ | ⟨y, ys⟩
      · exact absurd h (splitOnChar_ne_nil c xs)
      · rw [h] at ih
        simp only [List.headD_cons] at ih ⊢
        intro hmem
        rcases List.mem_cons.mp hmem with heq | hmem'
        · exact hx heq.symm
        · exact ih hmem'

/-- `split` yields at least two parts exactly when the separator occurs. -/
theorem splitOnChar_two_parts_iff (c : Char) (l : List Char) :
    2 ≤ (splitOnChar c l).length ↔ c ∈ l := by
  induction l with
  | nil => simp [splitOnChar]
  | cons x xs ih =>
    simp only [splitOnChar]
    split
    · next hx =>
      subst hx
      have := splitOnChar_ne_nil x xs
      rcases h : splitOnChar x xs with _ | ⟨y, ys⟩
      · exact absurd h this
      · simp [Nat.succ_le_succ, Nat.le_add_left]
    · next hx =>
      rcases h : splitOnChar c xs with _ | ⟨y, ys⟩
      · exact absurd h (splitOnChar_ne_nil c xs)
      · rw [h] at ih
        simp only [List.length_cons] at ih ⊢
        rw [ih]
        constructor
        · intro hmem
          exact List.mem_cons.mpr (Or.inr hmem)
        · intro hmem
          rcases List.mem_cons.mp hmem with heq | hmem'
          · exact absurd heq.symm hx
          · exact hmem'

/-- C6: branch resolution selects exactly one mode. With a truthy PR
number the branch is the upstream head name and the only fetch ref is
`pull/<n>/head:<name>`; with a truthy `<remote>/<branch>` spec containing
a slash, the remote is the (slash-free) first path segment, the branch is
the remainder with any further slashes kept (their concatenation
reconstructs the spec), and the only fetch ref is `<remote>/<branch>`;
otherwise the branch is the configured name or the synthesized
timestamp-based name and no fetch ref is produced. In every successful
resolution at most one fetch-ref slot is non-empty. -/
theorem branch_resolution_modes (cfg : OrchConfig) (env : OrchEnv) :
    (∀ r, resolveBranch cfg env = .ok r →
      r.prFetchRef = "" ∨ r.remoteFetchRef = "") ∧
    (strTruthy cfg.prNumber = true → env.ghPrLookupOk = true →
      resolveBranch cfg env =
        .ok ⟨env.headRefName,
             "pull/" ++ cfg.prNumber.getD "" ++ "/head:" ++ env.headRefName,
             ""⟩) ∧
    (∀ spec, strTruthy cfg.prNumber = false → cfg.remoteBranch = some spec →
      strTruthy cfg.remoteBranch = true → '/' ∈ spec.data →
      ∃ remote branchStr,
        resolveBranch cfg env =
          .ok ⟨branchStr, "", remote ++ "/" ++ branchStr⟩ ∧
        '/' ∉ remote.data ∧ remote ++ "/" ++ branchStr = spec) ∧
    (strTruthy cfg.prNumber = false → strTruthy cfg.remoteBranch = false →
      resolveBranch cfg env =
        .ok ⟨if strTruthy cfg.targetBranch = true then cfg.targetBranch.getD ""
             else "claude/" ++ env.datePart ++ "-" ++ toString env.nowMillis,
             "", ""⟩) := by
  refine ⟨?_, ?_, ?_, ?_⟩
  · intro r hr
    simp only [resolveBranch] at hr
    split_ifs at hr <;> simp_all <;> rw [← hr] <;> simp
  · intro h1 h2
    simp [resolveBranch, h1, h2]
  · intro spec h1 h2 h3 hslash
    have hlen : ¬(splitOnChar '/' spec.data).length < 2 := by
      have := (splitOnChar_two_parts_iff '/' spec.data).mpr hslash
      omega
    rw [h2] at h3
    refine ⟨String.mk ((splitOnChar '/' spec.data).headD []),
            String.mk (joinChar '/' ((splitOnChar '/' spec.data).drop 1)),
            ?_, ?_, ?_⟩
    · simp [resolveBranch, h1, h2, h3, hlen]
    · exact sep_not_mem_splitOnChar_head '/' spec.data
    · apply String.ext
      have hjoin := joinChar_splitOnChar '/' spec.data
      rcases hp : splitOnChar '/' spec.data with _ | ⟨p0, rest⟩
      · exact absurd hp (splitOnChar_ne_nil _ _)
      · rcases rest with _ | ⟨p1, rest'⟩
        · rw [hp] at hlen
          simp at hlen
        · rw [hp] at hjoin
          simp only [hp, List.headD_cons, List.drop_succ_cons, List.drop_zero,
            String.data_append]
          rw [← hjoin]
          simp [joinChar, String.mk]
  · intro h1 h2
    cases ht : strTruthy cfg.targetBranch <;>
      simp [resolveBranch, h1, h2, ht]

/-- Witness for C6, one concrete configuration per mode: a PR number
yields the PR fetch ref alone; `origin/feat/x` splits into remote
`origin` and branch `feat/x` (reconstructing the spec); a configured
target branch yields no fetch ref. -/
theorem branch_resolution_modes_witness :
    resolveBranch ⟨some "42", none, none⟩ ⟨true, "feature-x", "2024-01-01", 99⟩ =
      .ok ⟨"feature-x", "pull/" ++ "42" ++ "/head:" ++ "feature-x", ""⟩ ∧
    (∃ remote branchStr,
      resolveBranch ⟨none, some "origin/feat/x", none⟩ ⟨true, "h", "d", 0⟩ =
        .ok ⟨branchStr, "", remote ++ "/" ++ branchStr⟩ ∧
      '/' ∉ remote.data ∧ remote ++ "/" ++ branchStr = "origin/feat/x") ∧
    resolveBranch ⟨none, none, some "dev"⟩ ⟨true, "h", "d", 0⟩ =
      .ok ⟨"dev", "", ""⟩ := by
  refine ⟨?_, ?_, ?_⟩
  · exact (branch_resolution_modes ⟨some "42", none, none⟩
      ⟨true, "feature-x", "2024-01-01", 99⟩).2.1 rfl rfl
  · exact (branch_resolution_modes ⟨none, some "origin/feat/x", none⟩
      ⟨true, "h", "d", 0⟩).2.2.1 "origin/feat/x" rfl rfl rfl (by decide)
  · have := (branch_resolution_modes ⟨none, none, some "dev"⟩
      ⟨true, "h", "d", 0⟩).2.2.2 rfl rfl
    simpa using this

/-! ## C10 — the clean command -/

theorem cleanRecordsPass_foldl (env : RuntimeEnv)
    (iter st : List SessionRecord) :
    iter.foldl
      (fun acc s =>
        if env.inspectOk s.containerId then acc
        else removeSessionList acc s.containerId) st =
      st.filter (fun r =>
        iter.all (fun s =>
          env.inspectOk s.containerId || r.containerId ≠ s.containerId)) := by
  induction iter generalizing st with
  | nil => simp
  | cons s iter ih =>
    simp only [List.foldl_cons, List.all_cons]
    rcases h : env.inspectOk s.containerId
    · rw [if_neg (by simp [h]), ih]
      simp only [removeSessionList, List.filter_filter]
      apply List.filter_congr
      intro r _
      simp [h, Bool.and_comm]
    · rw [if_pos (by simp [h]), ih]
      apply List.filter_congr
      intro r _
      simp [h]

/-- The record phase of `clean` keeps exactly the records whose container
still answers `inspect`. -/
theorem cleanRecordsPass_eq_filter (env : RuntimeEnv)
    (l : List SessionRecord) :
    cleanRecordsPass env l =
      l.filter (fun r => env.inspectOk r.containerId) := by
  unfold cleanRecordsPass
  rw [cleanRecordsPass_foldl]
  apply List.filter_congr
  intro r hr
  rcases h : env.inspectOk r.containerId
  · rw [List.all_eq_false]
    exact ⟨r, hr, by simp [h]⟩
  · rw [List.all_eq_true]
    intro s hs
    by_cases hcid : r.containerId = s.containerId
    · simp [← hcid, h]
    · simp [hcid]

/-- C10: `clean` removes from the store every record whose container
fails `inspect`, independent of shadow-repo presence. A session whose
container is gone but whose shadow exists — which the decision table
classifies as recoverable — loses its record; without `--shadows` its
shadow directory survives, and with `--shadows` the (now orphaned)
directory named by its `sessionId` is deleted, provided no surviving
record shares that `sessionId`. -/
theorem clean_removes_gone_records (env : RuntimeEnv)
    (sessions : List SessionRecord) (shadowEntries shadowDirs : List String)
    (s : SessionRecord) (hs : s ∈ sessions)
    (hgone : containerStateOf env s.containerId = .gone)
    (hdir : shadowDirs.contains s.shadowRepoPath = true) :
    (∀ shadowsFlag, (cleanCmd env shadowsFlag sessions shadowEntries).1 =
      sessions.filter (fun r => env.inspectOk r.containerId)) ∧
    (⟨s, .gone, true⟩ : RecoverableSession) ∈
      getRecoverableSessions env shadowDirs sessions ∧
    (∀ shadowsFlag, s ∉ (cleanCmd env shadowsFlag sessions shadowEntries).1) ∧
    (cleanCmd env false sessions shadowEntries).2 = shadowEntries ∧
    ((∀ r ∈ sessions, env.inspectOk r.containerId = true →
        r.sessionId ≠ s.sessionId) →
      s.sessionId ∉ (cleanCmd env true sessions shadowEntries).2) := by
  have hbad : env.inspectOk s.containerId = false := by
    by_contra hcon
    rw [Bool.not_eq_false] at hcon
    rw [containerStateOf, if_pos hcon] at hgone
    rcases h : env.isRunning s.containerId <;> rw [h] at hgone <;>
      simp at hgone
  have hpass : ∀ shadowsFlag,
      (cleanCmd env shadowsFlag sessions shadowEntries).1 =
        sessions.filter (fun r => env.inspectOk r.containerId) :=
    fun _ => cleanRecordsPass_eq_filter env sessions
  refine ⟨hpass, ?_, ?_, ?_, ?_⟩
  · exact (mem_getRecoverableSessions env shadowDirs sessions
      ⟨s, .gone, true⟩).mpr ⟨hs, hgone.symm, hdir.symm, Or.inr rfl⟩
  · intro shadowsFlag hmem
    rw [hpass shadowsFlag] at hmem
    rcases List.mem_filter.mp hmem with ⟨_, hok⟩
    rw [hbad] at hok
    cases hok
  · simp [cleanCmd]
  · intro hnone hmem
    simp only [cleanCmd, cleanRecordsPass_eq_filter, if_pos] at hmem
    rcases List.mem_filter.mp hmem with ⟨_, hact⟩
    rw [List.contains_eq_any_beq] at hact
    rcases List.any_eq_true.mp hact with ⟨sid, hsid, hb⟩
    rcases List.mem_map.mp hsid with ⟨r, hr, rfl⟩
    rcases List.mem_filter.mp hr with ⟨hrmem, hrok⟩
    have hne : r.sessionId ≠ s.sessionId :=
      hnone r hrmem (by simpa using hrok)
    have heq : s.sessionId = r.sessionId := by simpa using hb
    exact hne heq.symm

/-- Witness for C10: a one-record store whose container is gone; its shadow
directory is present. The record disappears from the store; the shadow
entry survives a plain `clean` and is removed by `clean --shadows`. -/
theorem clean_removes_gone_records_witness :
    (⟨sampleRecord, .gone, true⟩ : RecoverableSession) ∈
      getRecoverableSessions goneRuntime [sampleRecord.shadowRepoPath]
        [sampleRecord] ∧
    (cleanCmd goneRuntime false [sampleRecord]
      [sampleRecord.sessionId]).2 = [sampleRecord.sessionId] ∧
    sampleRecord.sessionId ∉
      (cleanCmd goneRuntime true [sampleRecord]
        [sampleRecord.sessionId]).2 := by
  have happ := clean_removes_gone_records goneRuntime [sampleRecord]
    [sampleRecord.sessionId] [sampleRecord.shadowRepoPath]
    sampleRecord (List.mem_cons_self _ _) rfl (by decide)
  exact ⟨happ.2.1, happ.2.2.2.1,
    happ.2.2.2.2 (fun r hr hok => by simp [goneRuntime] at hok)⟩

end ClaudeSandbox
